import Mathlib

/-!
Verification development for the wallet-tracking repository.

The TypeScript sources are shallowly embedded as executable Lean definitions:

- src/ts/src/block-finder.ts : findBlockByTimestamp (binary search over block
  height) and the find action timestamp validation;
- src/ts/src/utils.ts : retryOperation and isValidTimestamp;
- src/ts/src/eth-transfers.ts : processBlock (native-transfer extraction) and
  the addressVolumes aggregation feeding the top-addresses ranking;
- src/ts/src/transfer-events.ts : the fetch action log-decoding loop, the
  tokenVolumes aggregation, the analyze action tokenStats aggregation, and
  the ranking comparator shared by both rankings.

Modelling conventions:
- JS numbers used as block heights and timestamps become Int (all arithmetic
  involved is exact integer arithmetic well inside the double-precision safe
  range); bigint values become Nat.
- Math.floor((low + high) / 2) is Int.fdiv (low + high) 2, the floor division.
- The RPC provider is modelled as a total oracle ts : Int -> Int giving each
  block height its timestamp; getBlock(mid) returns the block with
  number = mid and timestamp = ts mid. The hash field of a fetched block is
  carried verbatim and never inspected by any algorithm here, so it is
  dropped from the embedded BlockInfo record.
- JS strings are modelled as Lean String, with character-level operations
  (toLowerCase, slice, startsWith) defined over String.data so that they
  compute by kernel reduction.
- A JS Map is modelled as an insertion-ordered association list, matching the
  iteration order Array.from(map.entries()) exposes.
- The three ranking call sites hand Array.prototype.sort a comparator that
  never returns 0. Such a comparator is not a consistent comparison function,
  so ECMAScript leaves the resulting sort order implementation-defined (and
  engines disagree on ties); only the comparator itself is embedded here, and
  no sort-order guarantee is modelled.
-/

/-- Character-level model of JavaScript String.prototype.toLowerCase. -/
def strLower (s : String) : String := ⟨s.data.map Char.toLower⟩

/-- Character-level model of JavaScript String.prototype.slice(n). -/
def strDrop (s : String) (n : Nat) : String := ⟨s.data.drop n⟩

/-- BlockInfo from src/ts/src/utils.ts (number and timestamp; the hash field is
an opaque identifier the embedded algorithms never inspect). -/
structure BlockInfo where
  number : Int
  timestamp : Int
deriving DecidableEq, Repr

/-- Result of retryOperation from src/ts/src/utils.ts. ok is a successful
attempt, opFailed is the rethrown error of the final failed attempt, and
maxRetriesExceeded is the trailing throw reached when the loop body never
runs. -/
inductive RetryResult (ε α : Type) where
  | ok (a : α)
  | opFailed (e : ε)
  | maxRetriesExceeded
deriving DecidableEq, Repr

/-- Loop body of retryOperation: attempt i of the for loop running while
i < maxRetries. The fuel argument counts the remaining loop iterations and
equals maxRetries.toNat - i throughout. The awaited sleep between attempts has
no effect on the returned value and is not modelled. -/
def retryAux (op : Nat → Except ε α) (maxRetries : Int) : Nat → Nat → RetryResult ε α
  | _, 0 => .maxRetriesExceeded
  | i, fuel + 1 =>
    if (i : Int) < maxRetries then
      match op i with
      | .ok a => .ok a
      | .error e =>
        if (i : Int) = maxRetries - 1 then .opFailed e
        else retryAux op maxRetries (i + 1) fuel
    else .maxRetriesExceeded

/-- retryOperation from src/ts/src/utils.ts. The fallible operation is
modelled as a function from the attempt index to that attempt's outcome. -/
def retryOperation (op : Nat → Except ε α) (maxRetries : Int) : RetryResult ε α :=
  retryAux op maxRetries 0 maxRetries.toNat

/-- isValidTimestamp from src/ts/src/utils.ts. -/
def isValidTimestamp (timestamp : Int) : Bool :=
  decide (1420000000 < timestamp ∧ timestamp < 9999999999)

/-- The maxIterations safety limit of findBlockByTimestamp. -/
def maxIterations : Nat := 50

/-- Loop of findBlockByTimestamp from src/ts/src/block-finder.ts, instrumented
with the list of block heights probed (the getBlock calls at each midpoint).
The fuel argument is maxIterations - iterations; the loop runs while
low <= high and fuel remains. With a total chain oracle the block fetch never
fails, so the catch/break path is not exercised. -/
def findBlockByTimestampAux (ts : Int → Int) (targetTimestamp : Int) :
    Int → Int → Option BlockInfo → Nat → Option BlockInfo × List Int
  | _, _, result, 0 => (result, [])
  | low, high, result, fuel + 1 =>
    if low ≤ high then
      let mid := Int.fdiv (low + high) 2
      if ts mid < targetTimestamp then
        let rest := findBlockByTimestampAux ts targetTimestamp (mid + 1) high result fuel
        (rest.1, mid :: rest.2)
      else
        let rest := findBlockByTimestampAux ts targetTimestamp low (mid - 1)
          (some ⟨mid, ts mid⟩) fuel
        (rest.1, mid :: rest.2)
    else (result, [])

/-- findBlockByTimestamp from src/ts/src/block-finder.ts: the returned
BlockInfo (or null). -/
def findBlockByTimestamp (ts : Int → Int) (targetTimestamp low high : Int) :
    Option BlockInfo :=
  (findBlockByTimestampAux ts targetTimestamp low high none maxIterations).1

/-- The block heights findBlockByTimestamp probes with getBlock, in order. -/
def findBlockProbes (ts : Int → Int) (targetTimestamp low high : Int) : List Int :=
  (findBlockByTimestampAux ts targetTimestamp low high none maxIterations).2

/-- Error raised by the find action of block-finder.ts before any RPC call. -/
inductive FindError where
  | invalidTimestamp
deriving DecidableEq, Repr

/-- The find action of src/ts/src/block-finder.ts, from timestamp validation
through the binary search. The second component lists the block heights
requested over RPC: the initial getBlock(latest) call reads the chain head,
then the binary-search probes follow. An invalid timestamp exits before any
RPC call, so its call list is empty. -/
def findAction (ts : Int → Int) (head : Int) (targetTimestamp : Int) :
    Except FindError (Option BlockInfo) × List Int :=
  if !(isValidTimestamp targetTimestamp) then (.error .invalidTimestamp, [])
  else
    (.ok (findBlockByTimestamp ts targetTimestamp 0 head),
      head :: findBlockProbes ts targetTimestamp 0 head)

/-- A monotone timestamp oracle: 0 up to block 1, then 1 from block 2 on. The
earliest block with timestamp at least 1 is block 2. -/
def tsC1 : Int → Int := fun b => if b ≤ 1 then 0 else 1

/-- Transaction of a block fetched with full bodies, as read by processBlock in
src/ts/src/eth-transfers.ts. The source field names from and to become
fromAddr and toAddr (from is a Lean keyword); toAddr is null for contract
creation. -/
structure RawTx where
  fromAddr : String
  toAddr : Option String
  value : Nat
  hash : String
  gasLimit : Nat
  gasPrice : Nat
deriving DecidableEq, Repr

/-- EthTransfer from src/ts/src/utils.ts (field names from and to become
fromAddr and toAddr). -/
structure EthTransfer where
  fromAddr : String
  toAddr : String
  value : Nat
  blockNumber : Int
  transactionHash : String
  gasUsed : Nat
  gasPrice : Nat
deriving DecidableEq, Repr

/-- The optional from and to address filters of the eth-transfers fetch
action. -/
structure EthOptions where
  fromFilter : Option String
  toFilter : Option String
deriving DecidableEq, Repr

/-- An absent filter matches every address; a present one is compared
lowercased, as in tx.from.toLowerCase() !== options.from.toLowerCase(). -/
def addrFilterMatches (filter : Option String) (addr : String) : Bool :=
  match filter with
  | none => true
  | some f => strLower addr == strLower f

/-- Transaction loop of processBlock from src/ts/src/eth-transfers.ts: skip
contract creations (no to), zero-value transactions, transactions below the
minimum value, and filter mismatches; emit the rest in order. -/
def processTxs (blockNumber : Int) (opts : EthOptions) (minValueWei : Nat) :
    List RawTx → List EthTransfer
  | [] => []
  | tx :: rest =>
    let others := processTxs blockNumber opts minValueWei rest
    match tx.toAddr with
    | none => others
    | some toA =>
      if tx.value = 0 then others
      else if tx.value < minValueWei then others
      else if !(addrFilterMatches opts.fromFilter tx.fromAddr) then others
      else if !(addrFilterMatches opts.toFilter toA) then others
      else
        { fromAddr := tx.fromAddr, toAddr := toA, value := tx.value,
          blockNumber := blockNumber, transactionHash := tx.hash,
          gasUsed := tx.gasLimit, gasPrice := tx.gasPrice } :: others

/-- processBlock from src/ts/src/eth-transfers.ts. The argument blockTxs is
the transaction list of the block fetched via retryOperation; none covers the
null-block, missing-transactions and caught-error paths, all of which
contribute an empty transfer list. -/
def processBlock (blockTxs : Option (List RawTx)) (blockNumber : Int)
    (opts : EthOptions) (minValueWei : Nat) : List EthTransfer :=
  match blockTxs with
  | none => []
  | some txs => processTxs blockNumber opts minValueWei txs

/-- Raw log returned by getLogs, as consumed by the fetch action of
src/ts/src/transfer-events.ts. -/
structure RawLog where
  address : String
  topics : List String
  data : String
  blockNumber : Int
  transactionHash : String
  index : Nat
deriving DecidableEq, Repr

/-- TransferEvent from src/ts/src/utils.ts (field names from and to become
fromAddr and toAddr; the optional tokenSymbol and tokenDecimals fields are
total here because the fetch loop always assigns them). -/
structure TransferEvent where
  contractAddress : String
  fromAddr : String
  toAddr : String
  value : Nat
  blockNumber : Int
  transactionHash : String
  logIndex : Nat
  tokenSymbol : String
  tokenDecimals : Nat
deriving DecidableEq, Repr

/-- Value of one hexadecimal digit character, none for a non-digit. -/
def hexDigitVal (c : Char) : Option Nat :=
  if '0' ≤ c ∧ c ≤ '9' then some (c.toNat - '0'.toNat)
  else if 'a' ≤ c ∧ c ≤ 'f' then some (c.toNat - 'a'.toNat + 10)
  else if 'A' ≤ c ∧ c ≤ 'F' then some (c.toNat - 'A'.toNat + 10)
  else none

/-- Big-endian value of a hexadecimal digit string, none on any non-digit. -/
def hexChars (l : List Char) : Option Nat :=
  l.foldl
    (fun acc c =>
      match acc, hexDigitVal c with
      | some n, some d => some (16 * n + d)
      | _, _ => none)
    (some 0)

/-- Models the JavaScript BigInt(string) conversion for the 0x-prefixed form,
the only shape a log data field takes. BigInt of bare 0x or of a string with
a non-hex digit throws a SyntaxError in JS; both are none here and the
enclosing try/catch turns them into a skipped log. -/
def bigIntOfHexLiteral (s : String) : Option Nat :=
  match s.data with
  | '0' :: 'x' :: rest => if rest.isEmpty then none else hexChars rest
  | _ => none

/-- Models ethers.getAddress applied to the string 0x ++ topic.slice(26): it
accepts exactly a 40-hex-digit tail and returns the address, throwing
otherwise (none here). The EIP-55 checksum re-capitalization getAddress
performs is a keccak-based change of letter case only and is abstracted as
the identity; no embedded claim inspects letter case of decoded addresses. -/
def getAddressOfTopic (t : String) : Option String :=
  let s := strDrop t 26
  if s.data.length = 40 ∧ s.data.all (fun c => (hexDigitVal c).isSome) then
    some ("0x" ++ s)
  else none

/-- Log-decoding loop of the fetch action in src/ts/src/transfer-events.ts.
A log with fewer than 3 topics is skipped with a warning; an address decode
failure is caught by the per-log try/catch and skipped; empty data (missing
or bare 0x) is skipped with a warning; a BigInt decode failure is caught and
skipped. The meta argument is the best-effort token metadata lookup: the
symbol and decimals for a contract address after the catch-all defaults
UNKNOWN and 18 have been applied, so it is total. -/
def processLogs (meta : String → String × Nat) : List RawLog → List TransferEvent
  | [] => []
  | log :: rest =>
    let others := processLogs meta rest
    if log.topics.length < 3 then others
    else
      match getAddressOfTopic (log.topics.getD 1 ""),
          getAddressOfTopic (log.topics.getD 2 "") with
      | some fromA, some toA =>
        if log.data = "" ∨ log.data = "0x" then others
        else
          match bigIntOfHexLiteral log.data with
          | none => others
          | some v =>
            { contractAddress := log.address, fromAddr := fromA, toAddr := toA,
              value := v, blockNumber := log.blockNumber,
              transactionHash := log.transactionHash, logIndex := log.index,
              tokenSymbol := (meta log.address).1,
              tokenDecimals := (meta log.address).2 } :: others
      | _, _ => others

/-- JavaScript Map.set on the insertion-ordered association-list model: an
existing key keeps its position and gets the new value, a new key is appended
at the end. -/
def mapSet [BEq α] (k : α) (v : β) : List (α × β) → List (α × β)
  | [] => [(k, v)]
  | (k0, v0) :: rest => if k0 == k then (k, v) :: rest else (k0, v0) :: mapSet k v rest

/-- JavaScript Set.add on the insertion-ordered list model. -/
def setAdd [BEq α] (x : α) (s : List α) : List α :=
  if s.contains x then s else s ++ [x]

/-- Grouping key of the fetch action tokenVolumes map in
src/ts/src/transfer-events.ts: the template literal symbol ++ " (" ++
contract address ++ ")". -/
def tokenKey (e : TransferEvent) : String :=
  e.tokenSymbol ++ " (" ++ e.contractAddress ++ ")"

/-- The tokenVolumes accumulation of the fetch action: per tokenKey, the sum
of event values, in first-seen key order. -/
def tokenVolumes (events : List TransferEvent) : List (String × Nat) :=
  events.foldl
    (fun m e => mapSet (tokenKey e) ((List.lookup (tokenKey e) m).getD 0 + e.value) m)
    []

/-- The comparator shape shared by all three ranking call sites:
(a, b) => (key(b) > key(a) ? 1 : -1). It never returns 0: equal keys fall
into the else branch in either argument order. -/
def volDescComparator (key : α → Nat) (a b : α) : Int :=
  if key a < key b then 1 else -1

/-- One parsed row of the CSV file the analyze action reads back (field names
from and to become fromAddr and toAddr). The value field is the row value
already converted by BigInt(row.value || zero). -/
structure CsvRow where
  contractAddress : String
  tokenSymbol : String
  fromAddr : String
  toAddr : String
  value : Nat
deriving DecidableEq, Repr

/-- Per-token statistics of the analyze action. -/
structure TokenStats where
  count : Nat
  volume : Nat
  contracts : List String
deriving DecidableEq, Repr

/-- Grouping key of the analyze action tokenStats map: row.tokenSymbol with
the JS falsy default UNKNOWN for an empty symbol. The contract address is
not part of the key. -/
def analyzeTokenKey (row : CsvRow) : String :=
  if row.tokenSymbol = "" then "UNKNOWN" else row.tokenSymbol

/-- One row of the tokenStats accumulation of the analyze action: look up the
row's token key, bump the count, add the value to the volume, and add the
contract address to the per-entry set. -/
def tokenStatsStep (m : List (String × TokenStats)) (row : CsvRow) :
    List (String × TokenStats) :=
  let token := analyzeTokenKey row
  let stats := (List.lookup token m).getD ⟨0, 0, []⟩
  mapSet token
    ⟨stats.count + 1, stats.volume + row.value,
      setAdd row.contractAddress stats.contracts⟩ m

/-- The tokenStats accumulation of the analyze action in
src/ts/src/transfer-events.ts: count, volume and the set of contract
addresses per token symbol. -/
def tokenStats (rows : List CsvRow) : List (String × TokenStats) :=
  rows.foldl tokenStatsStep []

/-- Per-address accumulator of the eth-transfers fetch action. -/
structure AddrVolume where
  sent : Nat
  received : Nat
  count : Nat
deriving DecidableEq, Repr

/-- Sender update of the addressVolumes loop. -/
def bumpSent (m : List (String × AddrVolume)) (a : String) (v : Nat) :
    List (String × AddrVolume) :=
  let s := (List.lookup a m).getD ⟨0, 0, 0⟩
  mapSet a ⟨s.sent + v, s.received, s.count + 1⟩ m

/-- Receiver update of the addressVolumes loop. -/
def bumpReceived (m : List (String × AddrVolume)) (a : String) (v : Nat) :
    List (String × AddrVolume) :=
  let s := (List.lookup a m).getD ⟨0, 0, 0⟩
  mapSet a ⟨s.sent, s.received + v, s.count + 1⟩ m

/-- The addressVolumes accumulation of the eth-transfers fetch action. -/
def addressVolumes (transfers : List EthTransfer) : List (String × AddrVolume) :=
  transfers.foldl
    (fun m t => bumpReceived (bumpSent m t.fromAddr t.value) t.toAddr t.value)
    []

/-- Two aggregated entries with equal volume, the failing input of the
ranking tie-order claim: the first-seen order is the entry A then the entry
B, and the ranking comparator judges each as preceding the other. -/
def entryX : String × Nat := ("A", 5)

/-- Second equal-volume aggregated entry of the ranking failing input. -/
def entryY : String × Nat := ("B", 5)

/-- Append a key if it has not been seen yet. -/
def firstSeenStep (acc : List String) (k : String) : List String :=
  if acc.contains k then acc else acc ++ [k]

/-- First-seen order of the distinct keys a row sequence produces. -/
def firstSeenKeys (keys : List String) : List String :=
  keys.foldl firstSeenStep []

/-- Fetch event for the C7 witness: symbol TOK at contract 0xaaa. -/
def evtA : TransferEvent := ⟨"0xaaa", "0x1", "0x2", 5, 7, "t1", 0, "TOK", 18⟩

/-- Fetch event for the C7 witness: symbol TOK at contract 0xbbb. -/
def evtB : TransferEvent := ⟨"0xbbb", "0x3", "0x4", 9, 7, "t2", 1, "TOK", 18⟩

/-- Two analyze rows sharing the symbol TOK but held at different contract
addresses. -/
def rowA : CsvRow := ⟨"0xaaa", "TOK", "0x1", "0x2", 5⟩

/-- Second row for the analyze grouping counterexample. -/
def rowB : CsvRow := ⟨"0xbbb", "TOK", "0x3", "0x4", 7⟩

/-- Concrete transaction for the C3 witness: a plain value transfer. -/
def txW : RawTx := ⟨"0xAB", some "0xCD", 5, "h1", 21000, 7⟩

/-- Concrete filter options for the C3 witness: a sender filter differing from
the transaction sender only in letter case. -/
def optsW : EthOptions := ⟨some "0xab", none⟩

/-- The transfer processBlock emits for txW at block 1. -/
def trW : EthTransfer := ⟨"0xAB", "0xCD", 5, 1, "h1", 21000, 7⟩

/-- Best-effort token metadata oracle for the C4 witness: every contract falls
back to the defaults UNKNOWN and 18. -/
def metaW : String → String × Nat := fun _ => ("UNKNOWN", 18)

/-- A malformed log carrying only two topics, for the C4 witness. -/
def badLogW : RawLog := ⟨"0xc1", ["0xsig", "0xtopic"], "0x05", 7, "tx0", 0⟩

/-- First indexed-address topic of the well-formed C4 witness log. -/
def topic1W : String :=
  "0x000000000000000000000000aaaaaaaaaaaaaaaaaaaaaaaaaaaaaaaaaaaaaaaa"

/-- Second indexed-address topic of the well-formed C4 witness log. -/
def topic2W : String :=
  "0x000000000000000000000000bbbbbbbbbbbbbbbbbbbbbbbbbbbbbbbbbbbbbbbb"

/-- A well-formed Transfer log, for the C4 witness. -/
def goodLogW : RawLog :=
  ⟨"0xc2", ["0xsig", topic1W, topic2W], "0x0de0b6b3a7640000", 7, "tx1", 1⟩

/-- For the nonnegative divisor 2, the floor division Int.fdiv agrees with the
Euclidean division omega understands. -/
theorem fdiv_two_eq (a : Int) : a.fdiv 2 = a / 2 :=
  Int.fdiv_eq_ediv a (by omega)

/-- The probe list of the binary-search loop is bounded by its fuel. -/
theorem findBlockByTimestampAux_probes_length (ts : Int → Int) (t : Int) :
    ∀ (fuel : Nat) (low high : Int) (result : Option BlockInfo),
      ((findBlockByTimestampAux ts t low high result fuel).2).length ≤ fuel := by
  intro fuel
  induction fuel with
  | zero => intro low high result; simp [findBlockByTimestampAux]
  | succ n ih =>
    intro low high result
    simp only [findBlockByTimestampAux]
    split
    · split
      · simpa using Nat.succ_le_succ (ih _ _ _)
      · simpa using Nat.succ_le_succ (ih _ _ _)
    · simp

/-- C6: for every chain oracle, target timestamp and initial range, however
large, findBlockByTimestamp issues at most 50 midpoint getBlock probes before
terminating. -/
theorem findBlockProbes_length_le (ts : Int → Int) (t low high : Int) :
    (findBlockProbes ts t low high).length ≤ 50 :=
  findBlockByTimestampAux_probes_length ts t 50 low high none

/-- C5: the find action rejects a target timestamp outside the open interval
(1420000000, 9999999999) with an invalid-timestamp error and an empty RPC
call list, and isValidTimestamp accepts exactly that interval. -/
theorem findAction_invalid_timestamp (ts : Int → Int) (head t : Int) :
    (isValidTimestamp t = false →
      findAction ts head t = (.error .invalidTimestamp, [])) ∧
    (isValidTimestamp t = true ↔ 1420000000 < t ∧ t < 9999999999) := by
  constructor
  · intro h; simp [findAction, h]
  · simp [isValidTimestamp]

/-- Witness for C5: timestamp 0 is rejected with no RPC call. -/
theorem findAction_invalid_timestamp_witness :
    findAction (fun _ => 0) 100 0 = (.error .invalidTimestamp, []) :=
  (findAction_invalid_timestamp (fun _ => 0) 100 0).1 rfl

/-- C2: with maxRetries = 3, retryOperation returns the value of the first
successful attempt among the first three, propagates the error of the third
attempt when all three fail, and never consults the operation beyond the
first three attempts. -/
theorem retryOperation_three_spec {ε α : Type} (op : Nat → Except ε α) :
    (∀ i a, i < 3 → op i = .ok a → (∀ j, j < i → ∃ e, op j = .error e) →
      retryOperation op 3 = .ok a) ∧
    (∀ e0 e1 e2, op 0 = .error e0 → op 1 = .error e1 → op 2 = .error e2 →
      retryOperation op 3 = .opFailed e2) ∧
    (∀ op2 : Nat → Except ε α, (∀ i, i < 3 → op i = op2 i) →
      retryOperation op 3 = retryOperation op2 3) := by
  refine ⟨?_, ?_, ?_⟩
  · intro i a hi hok hprev
    interval_cases i
    · simp [retryOperation, retryAux, hok]
    · obtain ⟨e0, he0⟩ := hprev 0 (by omega)
      simp [retryOperation, retryAux, he0, hok]
    · obtain ⟨e0, he0⟩ := hprev 0 (by omega)
      obtain ⟨e1, he1⟩ := hprev 1 (by omega)
      simp [retryOperation, retryAux, he0, he1, hok]
  · intro e0 e1 e2 h0 h1 h2
    simp [retryOperation, retryAux, h0, h1, h2]
  · intro op2 h
    simp [retryOperation, retryAux, h 0 (by omega), h 1 (by omega), h 2 (by omega)]

/-- Witness for C2: two failures then a success yields the success; three
straight failures yield the error of the third attempt. -/
theorem retryOperation_three_spec_witness :
    retryOperation (fun i => if i < 2 then Except.error i else Except.ok 42) 3 =
        RetryResult.ok 42 ∧
    retryOperation (fun i : Nat => (Except.error i : Except Nat Nat)) 3 =
        RetryResult.opFailed 2 := by
  constructor
  · exact (retryOperation_three_spec _).1 2 42 (by omega) rfl
      (fun j hj => ⟨j, if_pos hj⟩)
  · exact (retryOperation_three_spec _).2.1 0 1 2 rfl rfl rfl

/-- C10: with maxRetries at most 0 the retry loop body never runs, so the
result is the trailing max-retries-exceeded error and is independent of the
operation. -/
theorem retryOperation_nonpos {ε α : Type} (op op2 : Nat → Except ε α)
    (maxRetries : Int) (h : maxRetries ≤ 0) :
    retryOperation op maxRetries = .maxRetriesExceeded ∧
    retryOperation op maxRetries = retryOperation op2 maxRetries := by
  have h0 : maxRetries.toNat = 0 := Int.toNat_of_nonpos h
  exact ⟨by simp [retryOperation, h0, retryAux],
    by simp [retryOperation, h0, retryAux]⟩

/-- Witness for C10 at maxRetries = -1. -/
theorem retryOperation_nonpos_witness :
    retryOperation (fun i : Nat => (Except.ok i : Except Nat Nat)) (-1) =
      RetryResult.maxRetriesExceeded :=
  (retryOperation_nonpos _ (fun _ => Except.error 0) (-1) (by omega)).1

/-- Every transfer the processBlock transaction loop emits comes from a
transaction with a present to address, a non-zero value meeting the minimum,
and matching filters. -/
theorem processTxs_mem (bn : Int) (opts : EthOptions) (minValueWei : Nat) :
    ∀ (txs : List RawTx) (tr : EthTransfer),
      tr ∈ processTxs bn opts minValueWei txs →
      tr.value ≠ 0 ∧ minValueWei ≤ tr.value ∧
      (∀ f, opts.fromFilter = some f → strLower tr.fromAddr = strLower f) ∧
      (∀ t0, opts.toFilter = some t0 → strLower tr.toAddr = strLower t0) ∧
      ∃ tx ∈ txs, tx.toAddr = some tr.toAddr ∧ tx.fromAddr = tr.fromAddr ∧
        tx.value = tr.value := by
  intro txs
  induction txs with
  | nil => intro tr htr; simp [processTxs] at htr
  | cons tx rest ih =>
    intro tr htr
    simp only [processTxs] at htr
    cases htx : tx.toAddr with
    | none =>
      rw [htx] at htr
      obtain ⟨h1, h2, h3, h4, tx0, htx0, hrest⟩ := ih tr htr
      exact ⟨h1, h2, h3, h4, tx0, List.mem_cons_of_mem _ htx0, hrest⟩
    | some toA =>
      rw [htx] at htr
      simp only at htr
      split at htr
      · obtain ⟨h1, h2, h3, h4, tx0, htx0, hrest⟩ := ih tr htr
        exact ⟨h1, h2, h3, h4, tx0, List.mem_cons_of_mem _ htx0, hrest⟩
      · split at htr
        · obtain ⟨h1, h2, h3, h4, tx0, htx0, hrest⟩ := ih tr htr
          exact ⟨h1, h2, h3, h4, tx0, List.mem_cons_of_mem _ htx0, hrest⟩
        · split at htr
          · obtain ⟨h1, h2, h3, h4, tx0, htx0, hrest⟩ := ih tr htr
            exact ⟨h1, h2, h3, h4, tx0, List.mem_cons_of_mem _ htx0, hrest⟩
          · split at htr
            · obtain ⟨h1, h2, h3, h4, tx0, htx0, hrest⟩ := ih tr htr
              exact ⟨h1, h2, h3, h4, tx0, List.mem_cons_of_mem _ htx0, hrest⟩
            · rename_i hnz hmin hfrom hto
              rcases List.mem_cons.mp htr with heq | hmem
              · subst heq
                simp only at hfrom hto ⊢
                refine ⟨hnz, by omega, ?_, ?_, tx, List.mem_cons_self _ _,
                  htx, rfl, rfl⟩
                · intro f hf
                  simp [addrFilterMatches, hf] at hfrom
                  exact hfrom
                · intro t0 ht0
                  simp [addrFilterMatches, ht0] at hto
                  exact hto
              · obtain ⟨h1, h2, h3, h4, tx0, htx0, hrest⟩ := ih tr hmem
                exact ⟨h1, h2, h3, h4, tx0, List.mem_cons_of_mem _ htx0, hrest⟩

/-- C3: every NativeTransfer processBlock returns originates in a transaction
with a present (non-null) to address, carries a non-zero value at least the
minimum-value threshold, and matches the optional lowercased from and to
address filters; contract creations and zero-value transactions never
appear. -/
theorem processBlock_exclusions (blockTxs : Option (List RawTx)) (bn : Int)
    (opts : EthOptions) (minValueWei : Nat) (tr : EthTransfer)
    (htr : tr ∈ processBlock blockTxs bn opts minValueWei) :
    tr.value ≠ 0 ∧ minValueWei ≤ tr.value ∧
    (∀ f, opts.fromFilter = some f → strLower tr.fromAddr = strLower f) ∧
    (∀ t0, opts.toFilter = some t0 → strLower tr.toAddr = strLower t0) ∧
    ∃ tx ∈ blockTxs.getD [], tx.toAddr = some tr.toAddr ∧
      tx.fromAddr = tr.fromAddr ∧ tx.value = tr.value := by
  cases blockTxs with
  | none => simp [processBlock] at htr
  | some txs => simpa using processTxs_mem bn opts minValueWei txs tr htr

/-- Witness for C3 at a concrete one-transaction block with a case-insensitive
sender filter and minimum value 3. -/
theorem processBlock_exclusions_witness :
    trW ∈ processBlock (some [txW]) 1 optsW 3 ∧ trW.value ≠ 0 ∧ 3 ≤ trW.value :=
  ⟨by decide, (processBlock_exclusions (some [txW]) 1 optsW 3 trW (by decide)).1,
    (processBlock_exclusions (some [txW]) 1 optsW 3 trW (by decide)).2.1⟩

/-- C4: a raw log carrying fewer than 3 topics or empty data contributes no
TransferEvent, and its presence leaves the processing of every other log
unchanged (no fatal error, the rest of the batch is still decoded). -/
theorem processLogs_skips_malformed (meta : String → String × Nat)
    (l1 l2 : List RawLog) (bad : RawLog)
    (hbad : bad.topics.length < 3 ∨ bad.data = "" ∨ bad.data = "0x") :
    processLogs meta (l1 ++ bad :: l2) = processLogs meta (l1 ++ l2) := by
  induction l1 with
  | nil =>
    simp only [List.nil_append]
    rcases hbad with h | h | h
    · simp [processLogs, h]
    · by_cases hlen : bad.topics.length < 3
      · simp [processLogs, hlen]
      · simp only [processLogs, if_neg hlen]
        cases hA : getAddressOfTopic (bad.topics.getD 1 "") <;>
          cases hB : getAddressOfTopic (bad.topics.getD 2 "") <;>
          simp [h]
    · by_cases hlen : bad.topics.length < 3
      · simp [processLogs, hlen]
      · simp only [processLogs, if_neg hlen]
        cases hA : getAddressOfTopic (bad.topics.getD 1 "") <;>
          cases hB : getAddressOfTopic (bad.topics.getD 2 "") <;>
          simp [h]
  | cons x xs ih =>
    simp only [List.cons_append, processLogs, List.append_eq, ih]

/-- Witness for C4: a two-topic log between no predecessor and one
well-formed log is dropped without disturbing the rest. -/
theorem processLogs_skips_malformed_witness :
    badLogW.topics.length < 3 ∧
    processLogs metaW ([] ++ badLogW :: [goodLogW]) =
      processLogs metaW ([] ++ [goodLogW]) :=
  ⟨by decide,
    processLogs_skips_malformed metaW [] [goodLogW] badLogW (Or.inl (by decide))⟩

/-- The key list of a JS-Map set: an existing key keeps the key list, a new
key is appended. -/
theorem mapSet_keys {α β : Type} [BEq α] [LawfulBEq α] (k : α) (v : β)
    (m : List (α × β)) :
    (mapSet k v m).map Prod.fst =
      if (m.map Prod.fst).contains k then m.map Prod.fst
      else m.map Prod.fst ++ [k] := by
  induction m with
  | nil => simp [mapSet]
  | cons p rest ih =>
    obtain ⟨k0, v0⟩ := p
    by_cases h : k0 == k
    · have hk : k0 = k := eq_of_beq h
      subst hk
      simp [mapSet]
    · have hne0 : k0 ≠ k := by simpa using h
      have hne : (k == k0) = false := beq_eq_false_iff_ne.mpr (Ne.symm hne0)
      have hcontains : ((k0 :: rest.map Prod.fst).contains k) =
          ((rest.map Prod.fst).contains k) := by
        rw [List.contains_cons, hne, Bool.false_or]
      have hif : mapSet k v ((k0, v0) :: rest) = (k0, v0) :: mapSet k v rest := by
        simp [mapSet, h]
      rw [hif, List.map_cons, List.map_cons, ih, hcontains]
      by_cases hc : (rest.map Prod.fst).contains k = true
      · rw [if_pos hc, if_pos hc]
      · rw [if_neg hc, if_neg hc]
        simp

/-- The key list of the analyze accumulation over any starting map follows
the first-seen key order. -/
theorem tokenStats_keys_foldl :
    ∀ (rows : List CsvRow) (m : List (String × TokenStats)),
      (rows.foldl tokenStatsStep m).map Prod.fst =
        rows.foldl (fun acc row => firstSeenStep acc (analyzeTokenKey row))
          (m.map Prod.fst) := by
  intro rows
  induction rows with
  | nil => intro m; rfl
  | cons r rs ih =>
    intro m
    simp only [List.foldl_cons]
    rw [ih]
    congr 1
    exact mapSet_keys _ _ m

/-- C7 (amended): the fetch-action tokenVolumes key (symbol plus contract
address) separates events that share a symbol but sit at different
contracts; the analyze-action tokenStats map instead groups rows by token
symbol alone, so its key list is exactly the first-seen sequence of row
symbols, with contract addresses recorded only inside each entry. -/
theorem tokenGrouping_keys (e1 e2 : TransferEvent) (rows : List CsvRow) :
    (e1.tokenSymbol = e2.tokenSymbol → e1.contractAddress ≠ e2.contractAddress →
      tokenKey e1 ≠ tokenKey e2) ∧
    (tokenStats rows).map Prod.fst = firstSeenKeys (rows.map analyzeTokenKey) := by
  constructor
  · intro hs hc hk
    apply hc
    apply String.ext
    have h2 := congrArg String.data hk
    simp only [tokenKey, String.data_append, hs, List.append_assoc] at h2
    exact List.append_cancel_right (List.append_cancel_left (List.append_cancel_left h2))
  · rw [tokenStats, tokenStats_keys_foldl rows [], firstSeenKeys, List.foldl_map]
    rfl

/-- Witness for C7: two concrete events sharing the symbol TOK at contracts
0xaaa and 0xbbb receive distinct fetch-action keys. -/
theorem tokenGrouping_keys_witness : tokenKey evtA ≠ tokenKey evtB :=
  (tokenGrouping_keys evtA evtB []).1 rfl (by decide)

/-- C7 counterexample: the analyze action counts two same-symbol rows held at
different contract addresses under one single key, not two distinct keys. -/
theorem tokenStats_merges_same_symbol :
    rowA.tokenSymbol = rowB.tokenSymbol ∧
    rowA.contractAddress ≠ rowB.contractAddress ∧
    (tokenStats [rowA, rowB]).map Prod.fst = ["TOK"] ∧
    (tokenStats [rowA, rowB]).length = 1 := by decide

/-- C8: the ranking comparator shared by the three sort call sites, embedded
from the source as volDescComparator, evaluated in general and at the failing
input entryX, entryY (equal volume 5, first seen in that order). It never
returns 0, and on the equal-volume pair each argument order returns -1, each
claiming its first argument precedes the other. An ECMAScript consistent
comparison function must be reflexively zero and antisymmetric in sign, so
this comparator is inconsistent and the sort order of equal-volume entries is
implementation-defined: the stable first-seen tie order the claim states is
not guaranteed by the code (Node reverses equal-volume runs). -/
theorem volDescComparator_ties_inconsistent :
    (∀ (α : Type) (key : α → Nat) (a b : α),
      volDescComparator key a b = 1 ∨ volDescComparator key a b = -1) ∧
    entryX.2 = entryY.2 ∧
    volDescComparator Prod.snd entryX entryY = -1 ∧
    volDescComparator Prod.snd entryY entryX = -1 := by
  refine ⟨?_, rfl, rfl, rfl⟩
  intro α key a b
  unfold volDescComparator
  split
  · exact Or.inl rfl
  · exact Or.inr rfl


/-- Every midpoint the binary-search loop probes lies inside the window it
was called with. -/
theorem findBlockByTimestampAux_probes_bounds (ts : Int → Int) (t : Int) :
    ∀ (fuel : Nat) (low high : Int) (result : Option BlockInfo),
      ∀ m ∈ (findBlockByTimestampAux ts t low high result fuel).2,
        low ≤ m ∧ m ≤ high := by
  intro fuel
  induction fuel with
  | zero => intro low high result m hm; simp [findBlockByTimestampAux] at hm
  | succ n ih =>
    intro low high result m hm
    simp only [findBlockByTimestampAux] at hm
    by_cases hlh : low ≤ high
    · rw [if_pos hlh] at hm
      have hmid : low ≤ Int.fdiv (low + high) 2 ∧ Int.fdiv (low + high) 2 ≤ high := by
        rw [fdiv_two_eq]; omega
      by_cases hts : ts (Int.fdiv (low + high) 2) < t
      · rw [if_pos hts] at hm
        dsimp only at hm
        rcases List.mem_cons.mp hm with rfl | hm2
        · exact hmid
        · have h2 := ih (Int.fdiv (low + high) 2 + 1) high result m hm2
          omega
      · rw [if_neg hts] at hm
        dsimp only at hm
        rcases List.mem_cons.mp hm with rfl | hm2
        · exact hmid
        · have h2 := ih low (Int.fdiv (low + high) 2 - 1) _ m hm2
          omega
    · rw [if_neg hlh] at hm
      simp at hm

/-- Any property holding of the carried result and of every in-window block
holds of whatever block the binary-search loop returns. -/
theorem findBlockByTimestampAux_result_prop (ts : Int → Int) (t : Int)
    (Q : BlockInfo → Prop) :
    ∀ (fuel : Nat) (low high : Int) (result : Option BlockInfo),
      (∀ r, result = some r → Q r) →
      (∀ m : Int, low ≤ m → m ≤ high → Q ⟨m, ts m⟩) →
      ∀ b, (findBlockByTimestampAux ts t low high result fuel).1 = some b → Q b := by
  intro fuel
  induction fuel with
  | zero =>
    intro low high result hres hwin b hb
    simp only [findBlockByTimestampAux] at hb
    exact hres b hb
  | succ n ih =>
    intro low high result hres hwin b hb
    simp only [findBlockByTimestampAux] at hb
    by_cases hlh : low ≤ high
    · rw [if_pos hlh] at hb
      have hmid : low ≤ Int.fdiv (low + high) 2 ∧ Int.fdiv (low + high) 2 ≤ high := by
        rw [fdiv_two_eq]; omega
      by_cases hts : ts (Int.fdiv (low + high) 2) < t
      · rw [if_pos hts] at hb
        dsimp only at hb
        exact ih _ high result hres (fun m h1 h2 => hwin m (by omega) h2) b hb
      · rw [if_neg hts] at hb
        dsimp only at hb
        refine ih low _ _ ?_ (fun m h1 h2 => hwin m h1 (by omega)) b hb
        intro r hr
        injection hr with hr2
        exact hr2 ▸ hwin (Int.fdiv (low + high) 2) hmid.1 hmid.2
    · rw [if_neg hlh] at hb
      dsimp only at hb
      exact hres b hb

/-- C9: the binary search never probes a block height outside the
caller-supplied range, and a non-null result always names a block number
inside that range. -/
theorem findBlock_range_invariant (ts : Int → Int) (t low high : Int) :
    (∀ m ∈ findBlockProbes ts t low high, low ≤ m ∧ m ≤ high) ∧
    (∀ b, findBlockByTimestamp ts t low high = some b →
      low ≤ b.number ∧ b.number ≤ high) := by
  constructor
  · exact fun m hm =>
      findBlockByTimestampAux_probes_bounds ts t maxIterations low high none m hm
  · intro b hb
    exact findBlockByTimestampAux_result_prop ts t
      (fun r => low ≤ r.number ∧ r.number ≤ high) maxIterations low high none
      (by simp) (fun m h1 h2 => ⟨h1, h2⟩) b hb

/-- Witness for C9 at the identity chain oracle over the range 0 to 10 with
target 5: height 5 is probed and the result block 5 lies in range. -/
theorem findBlock_range_invariant_witness :
    ((0:Int) ≤ 5 ∧ (5:Int) ≤ 10) ∧
      ((0:Int) ≤ (⟨5, 5⟩ : BlockInfo).number ∧ (⟨5, 5⟩ : BlockInfo).number ≤ 10) :=
  ⟨(findBlock_range_invariant (fun b => b) 5 0 10).1 5 (by decide),
    (findBlock_range_invariant (fun b => b) 5 0 10).2 ⟨5, 5⟩ (by decide)⟩

/-- When every block of the window misses the target, the loop only ever
moves low upward and returns the carried result unchanged. -/
theorem findBlockByTimestampAux_all_below (ts : Int → Int) (t : Int) :
    ∀ (fuel : Nat) (low high : Int) (result : Option BlockInfo),
      (∀ b : Int, low ≤ b → b ≤ high → ts b < t) →
      (findBlockByTimestampAux ts t low high result fuel).1 = result := by
  intro fuel
  induction fuel with
  | zero => intro low high result _; rfl
  | succ n ih =>
    intro low high result hfail
    simp only [findBlockByTimestampAux]
    by_cases hlh : low ≤ high
    · rw [if_pos hlh]
      have hmid : low ≤ Int.fdiv (low + high) 2 ∧ Int.fdiv (low + high) 2 ≤ high := by
        rw [fdiv_two_eq]; omega
      have hts : ts (Int.fdiv (low + high) 2) < t := hfail _ hmid.1 hmid.2
      rw [if_pos hts]
      dsimp only
      exact ih _ high result (fun b h1 h2 => hfail b (by omega) h2)
    · rw [if_neg hlh]

/-- With enough fuel for the window size, the loop returns exactly the
earliest in-window block whose timestamp reaches the target. -/
theorem findBlockByTimestampAux_leftmost (ts : Int → Int) (t : Int)
    (hmono : ∀ a b : Int, a ≤ b → ts a ≤ ts b) :
    ∀ (fuel : Nat) (low high : Int) (result : Option BlockInfo) (L : Int),
      high - low < 2 ^ fuel - 1 →
      low ≤ L → L ≤ high → t ≤ ts L →
      (∀ b : Int, low ≤ b → b < L → ts b < t) →
      (findBlockByTimestampAux ts t low high result fuel).1 = some ⟨L, ts L⟩ := by
  intro fuel
  induction fuel with
  | zero =>
    intro low high result L hsize h1 h2 hL hbelow
    exfalso
    have hp : (2:Int) ^ 0 = 1 := pow_zero 2
    omega
  | succ n ih =>
    intro low high result L hsize h1 h2 hL hbelow
    have hlh : low ≤ high := le_trans h1 h2
    have hp : (2:Int) ^ (n + 1) = 2 * 2 ^ n := by ring
    have hmb : 2 * Int.fdiv (low + high) 2 ≤ low + high ∧
        low + high ≤ 2 * Int.fdiv (low + high) 2 + 1 := by
      rw [fdiv_two_eq]; omega
    simp only [findBlockByTimestampAux]
    rw [if_pos hlh]
    by_cases hts : ts (Int.fdiv (low + high) 2) < t
    · rw [if_pos hts]
      dsimp only
      have hLmid : Int.fdiv (low + high) 2 < L := by
        by_contra hc
        push_neg at hc
        exact absurd (lt_of_le_of_lt (hmono L _ hc) hts) (not_lt.mpr hL)
      exact ih _ high result L (by omega) (by omega) h2 hL
        (fun b hb1 hb2 => hbelow b (by omega) hb2)
    · rw [if_neg hts]
      dsimp only
      have hLle : L ≤ Int.fdiv (low + high) 2 := by
        by_contra hc
        push_neg at hc
        exact hts (hbelow _ (by omega) hc)
      by_cases hLeq : L = Int.fdiv (low + high) 2
      · rw [findBlockByTimestampAux_all_below ts t n low _ _
          (fun b hb1 hb2 => hbelow b hb1 (by omega))]
        rw [hLeq]
      · exact ih low _ _ L (by omega) h1 (by omega) hL hbelow

/-- C1 (amended): for every monotone timestamp oracle and every initial range
whose size stays under 2^50 (so the 50-iteration safety ceiling is never the
cause of exit), findBlockByTimestamp returns null when no in-range block
reaches the target, and otherwise returns exactly the earliest in-range block
whose timestamp is at least the target; in particular an exact timestamp tie
returns its earliest occurrence. -/
theorem findBlockByTimestamp_leftmost (ts : Int → Int) (t low high : Int)
    (hmono : ∀ a b : Int, a ≤ b → ts a ≤ ts b)
    (hsize : high - low < 2 ^ 50 - 1) :
    ((∀ b : Int, low ≤ b → b ≤ high → ts b < t) →
      findBlockByTimestamp ts t low high = none) ∧
    (∀ L : Int, low ≤ L → L ≤ high → t ≤ ts L →
      (∀ b : Int, low ≤ b → b < L → ts b < t) →
      findBlockByTimestamp ts t low high = some ⟨L, ts L⟩) := by
  constructor
  · intro hfail
    exact findBlockByTimestampAux_all_below ts t maxIterations low high none hfail
  · intro L h1 h2 h3 h4
    exact findBlockByTimestampAux_leftmost ts t hmono maxIterations low high none L
      hsize h1 h2 h3 h4

/-- Witness for C1 at the identity oracle: target 5 over 0..10 returns block
5 (the earliest with timestamp at least 5), and target 20 over 0..10 returns
null. -/
theorem findBlockByTimestamp_leftmost_witness :
    findBlockByTimestamp (fun b => b) 5 0 10 = some ⟨5, 5⟩ ∧
    findBlockByTimestamp (fun b => b) 20 0 10 = none :=
  ⟨(findBlockByTimestamp_leftmost (fun b => b) 5 0 10 (fun a b h => h)
      (by norm_num)).2 5 (by norm_num) (by norm_num) (le_refl 5)
      (fun b hb1 hb2 => hb2),
    (findBlockByTimestamp_leftmost (fun b => b) 20 0 10 (fun a b h => h)
      (by norm_num)).1 (fun b h1 h2 => by omega)⟩

/-- C1 counterexample: tsC1 is monotone by construction (timestamp 0 up to
block 1, timestamp 1 from block 2 on), so with target 1 the earliest
satisfying block of the range 0..2^51 is block 2; yet the run exits at the
50-iteration safety ceiling still holding block 3, so over a large enough
range the returned block is not the earliest block with timestamp at least
the target. -/
theorem findBlockByTimestamp_ceiling_miss :
    tsC1 1 = 0 ∧ tsC1 2 = 1 ∧
    findBlockByTimestamp tsC1 1 0 (2 ^ 51) = some ⟨3, 1⟩ ∧
    (⟨3, 1⟩ : BlockInfo) ≠ ⟨2, tsC1 2⟩ := by decide
